import Mathlib

/-!
Verification development for the quiz-generation benchmark repository.

Shallow embedding of the repository's core logic:
* `src/models/quiz.py` — quiz data model and `QuizQuestion.__post_init__` validation;
* `src/metrics/base.py` — `BaseMetric.run_stage`, `BaseMetric.evaluate`,
  `BaseMetric.parse_structured_response`;
* `src/metrics/coverage.py` — `CoverageMetric._get_weights`,
  `OverallCoverageResponse.final_score_matches_sub_scores`, `CoverageMetric.parse_score`;
* `src/analysis/aggregator.py` — `ResultsAggregator.aggregate`,
  `ResultsAggregator.aggregate_by_metric`, `ResultsAggregator.compare_evaluators`;
* `src/models/result.py` — `MetricAggregation.__post_init__`.

Python floats are modelled as `ℚ` (all arithmetic in the relevant code paths is
exact at this granularity); `statistics.stdev`'s square root lands in `ℝ`.
Python `None`-able values are `Option`; raised exceptions are `Except String`.
-/

namespace QuizBench

/-- Structured-response values (entries of the `Dict[str, Any]` payloads
returned by `generate_structured`).  Only numeric and string leaves are
needed by the verified code paths. -/
inductive SVal where
  | num (q : ℚ)
  | str (s : String)
deriving DecidableEq, Repr

/-- A structured LLM response payload: Python `Dict[str, Any]` as an
association list in insertion order. -/
abbrev StructuredDict := List (String × SVal)

/-- First-match lookup, the semantics of `d[k]` / `d.get(k)` on a dict
represented as an association list with distinct keys. -/
def dictGet (d : StructuredDict) (k : String) : Option SVal :=
  (d.find? (fun p => p.1 = k)).map (·.2)

/-! ### Quiz data model (`src/models/quiz.py`) -/

/-- `QuestionType` enum. -/
inductive QuestionType where
  | multiple_choice
  | single_choice
  | true_false
deriving DecidableEq, Repr

/-- `QuizQuestion` dataclass.  `correct_answer : Union[str, List[str]]` is a sum;
the free-form `metadata` dict is not modelled (no verified path reads it). -/
structure QuizQuestion where
  question_id : String
  question_type : QuestionType
  question_text : String
  options : List String
  correct_answer : String ⊕ List String
  source_reference : Option String := none
deriving DecidableEq, Repr

/-- `QuizQuestion.__post_init__` (src/models/quiz.py lines 39-56):
dataclass construction followed by validation.  The str→enum coercion at the
top of `__post_init__` is a Python-typing artifact (inputs here are already
typed).  Checks run in source order; the first failing check raises. -/
def mkQuizQuestion (question_id : String) (question_type : QuestionType)
    (question_text : String) (options : List String)
    (correct_answer : String ⊕ List String)
    (source_reference : Option String := none) : Except String QuizQuestion :=
  if question_type = QuestionType.multiple_choice then
    match correct_answer with
    | Sum.inl _ => .error "Multiple choice questions must have list of correct answers"
    | Sum.inr _ =>
        pure { question_id, question_type, question_text, options, correct_answer,
               source_reference }
  else
    match correct_answer with
    | Sum.inr _ => .error "Single choice and T/F questions must have string answer"
    | Sum.inl _ =>
        if question_type = QuestionType.true_false ∧ options ≠ ["True", "False"] then
          .error "True/False questions must have options [True, False]"
        else
          pure { question_id, question_type, question_text, options, correct_answer,
                 source_reference }

/-- The type invariant the spec states for questions: true/false questions
have exactly the options `["True","False"]`; multiple-choice questions have a
list-valued correct answer; all others have a string-valued answer. -/
def QuestionInvariant (question_type : QuestionType) (options : List String)
    (correct_answer : String ⊕ List String) : Prop :=
  (question_type = QuestionType.true_false → options = ["True", "False"]) ∧
  (question_type = QuestionType.multiple_choice → (∃ l, correct_answer = Sum.inr l)) ∧
  (question_type ≠ QuestionType.multiple_choice → (∃ s, correct_answer = Sum.inl s))

/-- `Quiz` dataclass (fields consumed by the verified code paths). -/
structure Quiz where
  quiz_id : String
  title : String
  source_material : String
  questions : List QuizQuestion
deriving DecidableEq, Repr

/-- `Quiz.num_questions`. -/
def Quiz.num_questions (qz : Quiz) : Nat := qz.questions.length

/-! ### Coverage metric pieces (`src/metrics/coverage.py`) -/

/-- The four coverage sub-score weights. -/
structure CoverageWeights where
  breadth : ℤ
  depth : ℤ
  balance : ℤ
  critical : ℤ
deriving DecidableEq, Repr

/-- `CoverageMetric._get_weights` (coverage.py lines 97-103), translated
branch for branch. -/
def get_weights (granularity : String) : CoverageWeights :=
  if granularity = "broad" then
    { breadth := 40, depth := 20, balance := 20, critical := 20 }
  else if granularity = "detailed" then
    { breadth := 20, depth := 40, balance := 20, critical := 20 }
  else
    { breadth := 30, depth := 30, balance := 20, critical := 20 }

/-- The `granularity` parameter declaration from `CoverageMetric.parameters`
(coverage.py lines 78-86): name and default value (the Python `param_type`
field is a runtime type object and carries no value content). -/
def coverage_granularity_default : String := "balanced"

/-- `SubScores` pydantic model (coverage.py lines 9-13): the four sub-scores,
each already range-validated to [0,100] by its `Field(ge=0, le=100)`. -/
structure SubScores where
  breadth : ℚ
  depth : ℚ
  balance : ℚ
  critical : ℚ
deriving DecidableEq, Repr

/-- `OverallCoverageResponse.final_score_matches_sub_scores`
(coverage.py lines 55-63): the pydantic field validator for `final_score`.
`info.data.get("sub_scores")` is `None` when the `sub_scores` field itself
failed validation, in which case the check is skipped; otherwise the reported
value is rejected iff it differs from the sum of the four sub-scores by more
than 1.0, and is returned unchanged otherwise. -/
def final_score_matches_sub_scores (sub_scores : Option SubScores)
    (v : ℚ) : Except String ℚ :=
  match sub_scores with
  | none => pure v
  | some sub =>
      let expected := sub.breadth + sub.depth + sub.balance + sub.critical
      if |v - expected| > 1 then
        .error "final_score does not match sum of sub_scores"
      else
        pure v

/-- `round(x, 1)` as used by `CoverageMetric.parse_score`: round to one
decimal place.  (Mathlib's `round` rounds half away from the lower value;
Python's banker's tie-breaking on binary floats is not modelled — no verified
statement evaluates `pyRound1` at an exact half-way point.) -/
def pyRound1 (q : ℚ) : ℚ := (round (10 * q) : ℤ) / 10

/-- Python `float(x)` applied to a structured-dict value (a numeric payload
converts to itself; no verified path feeds a string here). -/
def svalToFloat : SVal → Except String ℚ
  | SVal.num q => pure q
  | SVal.str _ => .error "could not convert value to float"

/-- `CoverageMetric.parse_score` (coverage.py lines 269-287): extract
`final_score` from the scoring phase's output dict, range-check it, and round
it to one decimal place. -/
def coverage_parse_score (data : StructuredDict) : Except String ℚ := do
  let v ← match dictGet data "final_score" with
    | none => .error "Coverage parsing failed. Expected final_score"
    | some v => pure v
  let score ← svalToFloat v
  if 0 ≤ score ∧ score ≤ 100 then
    pure (pyRound1 score)
  else
    .error "Coverage score must be between 0 and 100"

/-! ### The evaluation orchestrator (`src/metrics/base.py`)

`BaseMetric.evaluate` is generic over the concrete metric subclass: the hook
methods a subclass supplies are gathered into a `Metric` record, parameterised
by the structured-response payload type `R` (Python's `Dict[str, Any]`).  The
LLM client's `generate_structured(prompt, schema)` is a function from the
prompt to a payload; the pydantic schema argument carries no value content
(validation failures are the client raising, which a deterministic client
function does not model — no verified statement depends on it).  Hooks that
may raise return `Except String`. -/

/-- The hook methods of a `BaseMetric` subclass, as consumed by
`BaseMetric.evaluate`.  Defaults mirror the base-class implementations:
`generate_context` returns an empty dict, `get_per_question_prompt`
returns `None` for every question. -/
structure Metric (R : Type) where
  name : String
  generate_context : Option String → (String → R) → Except String StructuredDict :=
    fun _ _ => pure []
  get_per_question_prompt : QuizQuestion → String → StructuredDict → Option String :=
    fun _ _ _ => none
  get_prompt : Option QuizQuestion → Option Quiz → Option String →
    Option (List R) → StructuredDict → Except String String
  parse_structured_response : R → Except String ℚ

/-- `BaseMetric.run_stage` (base.py lines 71-87): one structured LLM call per
prompt, results in prompt order.  The `schema` argument is value-free (see
the note on `Metric`). -/
def run_stage {R : Type} (prompts : List String) (llm_client : String → R) : List R :=
  prompts.map llm_client

/-- Python truthiness of an `Optional[str]`: `None` and `""` are falsy. -/
def pyTruthyStr : Option String → Bool
  | none => false
  | some s => !s.isEmpty

/-- Python `source_text or ""`: the right operand when `source_text` is falsy
(`None` or `""`), the string itself otherwise. -/
def pyOrEmpty : Option String → String
  | none => ""
  | some s => s

/-- Step 1 of `BaseMetric.evaluate` (base.py line 165):
`context = self.generate_context(source_text, llm_client) if source_text else {}`. -/
def contextOf {R : Type} (m : Metric R) (source_text : Option String)
    (llm_client : String → R) : Except String StructuredDict :=
  if pyTruthyStr source_text then m.generate_context source_text llm_client
  else pure []

/-- The per-question prompt list of `BaseMetric.evaluate` (base.py lines
169-173): one `get_per_question_prompt` call per question of the quiz, in
quiz order, with `source_text or ""`. -/
def perQuestionPrompts {R : Type} (m : Metric R) (qz : Quiz)
    (source_text : Option String) (context : StructuredDict) : List (Option String) :=
  qz.questions.map (fun q => m.get_per_question_prompt q (pyOrEmpty source_text) context)

/-- Steps 2 of `BaseMetric.evaluate` (base.py lines 167-178): when a quiz is
given, build the per-question prompts; if any is non-`None`, run the fan-out
stage over the non-`None` ones; otherwise `per_question_results` stays
`None`. -/
def perQuestionResultsOf {R : Type} (m : Metric R) (quiz : Option Quiz)
    (source_text : Option String) (context : StructuredDict)
    (llm_client : String → R) : Option (List R) :=
  match quiz with
  | none => none
  | some qz =>
      let prompts := perQuestionPrompts m qz source_text context
      if prompts.any Option.isSome then
        some (run_stage (prompts.filterMap id) llm_client)
      else
        none

/-- The metadata record attached to an `EvaluationResult`
(base.py lines 195-199). -/
structure EvalMetadata (R : Type) where
  evaluation_context : StructuredDict
  structured_response : R
  per_question_results : Option (List R)

/-- `EvaluationResult` (src/models/result.py lines 40-56); `raw_response` is
`json.dumps(structured)` in the source — the serialisation itself is not
modelled, the payload it serialises is stored. -/
structure EvaluationResult (R : Type) where
  score : ℚ
  raw_response : R
  metadata : EvalMetadata R

/-- `BaseMetric.evaluate` (base.py lines 136-200), step for step:
llm_client presence check, context generation, optional per-question fan-out,
final prompt, one structured call, score extraction, result assembly.
The `[structured] = self.run_stage([prompt], ...)` destructuring is the match
on a singleton list (the impossible branches raise, as Python unpacking
would). -/
def evaluate {R : Type} (m : Metric R) (question : Option QuizQuestion)
    (quiz : Option Quiz) (source_text : Option String)
    (llm_client : Option (String → R)) : Except String (EvaluationResult R) :=
  match llm_client with
  | none => .error (m.name ++ " requires an llm_client")
  | some llm => do
      let context ← contextOf m source_text llm
      let per_question_results := perQuestionResultsOf m quiz source_text context llm
      let prompt ← m.get_prompt question quiz source_text per_question_results context
      let structured ← match run_stage [prompt] llm with
        | [s] => pure s
        | _ => .error "cannot unpack structured response"
      let score ← m.parse_structured_response structured
      pure { score,
             raw_response := structured,
             metadata := { evaluation_context := context,
                           structured_response := structured,
                           per_question_results } }

/-- `BaseMetric.parse_structured_response` (base.py lines 208-213):
`float(response["score"])` (a `KeyError` if absent), then the `[0,100]`
range check, and the value is returned unchanged. -/
def parse_structured_response (response : StructuredDict) : Except String ℚ := do
  let v ← match dictGet response "score" with
    | none => .error "KeyError: score"
    | some v => pure v
  let score ← svalToFloat v
  if 0 ≤ score ∧ score ≤ 100 then
    pure score
  else
    .error "Score must be between 0 and 100"

/-! ### Result data model (`src/models/result.py`) and the aggregator
(`src/analysis/aggregator.py`)

Python dicts that matter to the aggregator are in-order association lists:
`defaultdict(list)` buckets grow by appending to the bucket of an existing
key in place (insertion order of keys preserved) and new keys are appended at
the end; plain dict assignment overwrites in place. -/

/-- `MetricResult` dataclass (the fields the aggregator reads; the
`parameters`/timestamp/raw-response bookkeeping fields carry no aggregation
content). -/
structure MetricResult where
  metric_name : String
  metric_version : String
  score : ℚ
  evaluator_model : String
  quiz_id : String
  question_id : Option String := none
deriving DecidableEq, Repr

/-- `BenchmarkResult` dataclass (the fields the aggregator reads). -/
structure BenchmarkResult where
  benchmark_id : String
  benchmark_version : String
  config_hash : String
  quiz_id : String
  run_number : ℤ
  metrics : List MetricResult
deriving DecidableEq, Repr

/-- `MetricAggregation` dataclass (result.py lines 102-130); `num_runs` is a
non-init field, set by `__post_init__` — see `mkMetricAggregation`. -/
structure MetricAggregation where
  metric_name : String
  evaluator_model : String
  mean : ℚ
  median : ℚ
  std_dev : ℝ
  min : ℚ
  max : ℚ
  per_run_scores : List ℚ
  num_runs : ℕ

/-- `MetricAggregation(...)` construction followed by
`MetricAggregation.__post_init__` (result.py lines 128-130), which sets
`num_runs = len(per_run_scores)`. -/
def mkMetricAggregation (metric_name evaluator_model : String) (mean median : ℚ)
    (std_dev : ℝ) (min max : ℚ) (per_run_scores : List ℚ) : MetricAggregation :=
  { metric_name, evaluator_model, mean, median, std_dev, min, max, per_run_scores,
    num_runs := per_run_scores.length }

/-- `AggregatedResults` dataclass (the fields `aggregate` fills). -/
structure AggregatedResults where
  benchmark_config_name : String
  benchmark_version : String
  quiz_ids : List String
  total_runs : ℕ
  aggregations : List (String × MetricAggregation)

/-! #### Grouping primitives (ordered-dict semantics) -/

/-- The bucket a key holds in a `defaultdict(list)`-style association list
(`[]` for an absent key). -/
def bucketOf {κ β : Type} [DecidableEq κ] (gs : List (κ × List β)) (k : κ) : List β :=
  ((gs.find? (fun p => p.1 = k)).map (·.2)).getD []

/-- `defaultdict(list)`: append `vs` to the bucket of `k` in place if `k` is
present, else append a new `(k, vs)` entry at the end.  `vs = [v]` is
`d[k].append(v)`; a longer `vs` is `d[k].extend(vs)`. -/
def addGroup {κ β : Type} [DecidableEq κ] :
    List (κ × List β) → κ → List β → List (κ × List β)
  | [], k, vs => [(k, vs)]
  | (k', vs') :: rest, k, vs =>
      if k' = k then (k', vs' ++ vs) :: rest else (k', vs') :: addGroup rest k vs

/-- Grouping loop `for x in xs: d[key x].append(val x)` over an initially
empty `defaultdict(list)`. -/
def groupByKey {α κ β : Type} [DecidableEq κ] (key : α → κ) (val : α → β)
    (xs : List α) : List (κ × List β) :=
  xs.foldl (fun acc x => addGroup acc (key x) [val x]) []

/-- Regrouping loop `for k, vs in gs.items(): d[proj k].extend(vs)` over an
initially empty `defaultdict(list)`. -/
def regroup {κ κ₂ β : Type} [DecidableEq κ₂] (proj : κ → κ₂)
    (gs : List (κ × List β)) : List (κ₂ × List β) :=
  gs.foldl (fun acc p => addGroup acc (proj p.1) p.2) []

/-- Plain dict assignment `d[k] = v`: overwrite in place if present, append
otherwise. -/
def assocSet {κ β : Type} [DecidableEq κ] : List (κ × β) → κ → β → List (κ × β)
  | [], k, v => [(k, v)]
  | (k', v') :: rest, k, v =>
      if k' = k then (k, v) :: rest else (k', v') :: assocSet rest k v

/-- Dict lookup `d.get(k)`. -/
def assocGet {κ β : Type} [DecidableEq κ] (d : List (κ × β)) (k : κ) : Option β :=
  (d.find? (fun p => p.1 = k)).map (·.2)

/-! #### The statistics the aggregator computes (`statistics` module) -/

/-- `statistics.mean` (never reached on an empty list in the aggregator, so
the junk value at `[]` is irrelevant). -/
def pyMean (l : List ℚ) : ℚ := l.sum / l.length

/-- `statistics.median`: sort ascending; middle element for odd length, mean
of the two middle elements for even length. -/
def pyMedian (l : List ℚ) : ℚ :=
  let s := l.mergeSort (fun a b => a ≤ b)
  let n := l.length
  if n % 2 = 1 then s.getD (n / 2) 0
  else (s.getD (n / 2 - 1) 0 + s.getD (n / 2) 0) / 2

/-- Python `min` over a (nonempty) list. -/
def pyMin : List ℚ → ℚ
  | [] => 0
  | x :: xs => xs.foldl Min.min x

/-- Python `max` over a (nonempty) list. -/
def pyMax : List ℚ → ℚ
  | [] => 0
  | x :: xs => xs.foldl Max.max x

/-- The sample variance under the square root of `statistics.stdev`:
`Σ (x - mean)² / (n - 1)`. -/
def sampleVariance (l : List ℚ) : ℚ :=
  ((l.map (fun x => (x - pyMean l) ^ 2)).sum) / ((l.length - 1 : ℕ) : ℚ)

/-- `statistics.stdev(scores) if len(scores) > 1 else 0.0`, the guarded
standard deviation used at both `MetricAggregation` construction sites.
The square root of a rational is irrational in general, so this value (and
nothing else in the development) lives in `ℝ` and is not executable; every
other field of every aggregation record remains computable. -/
noncomputable def pyStdevGuarded (l : List ℚ) : ℝ :=
  if 1 < l.length then Real.sqrt (sampleVariance l) else 0

/-- The `MetricAggregation(...)` construction expression shared verbatim by
`ResultsAggregator.aggregate` (aggregator.py lines 62-71) and
`ResultsAggregator.aggregate_by_metric` (lines 130-139). -/
noncomputable def aggEntry (metric_name evaluator_model : String) (all_scores : List ℚ) :
    MetricAggregation :=
  mkMetricAggregation metric_name evaluator_model
    (pyMean all_scores) (pyMedian all_scores) (pyStdevGuarded all_scores)
    (pyMin all_scores) (pyMax all_scores) all_scores

/-! #### The aggregator itself -/

/-- Python `metric.question_id or "quiz_level"`: the default when the id is
falsy (`None` or `""`). -/
def pyOrStr (o : Option String) (d : String) : String :=
  match o with
  | none => d
  | some s => if s.isEmpty then d else s

/-- The four-component grouping key of `ResultsAggregator.aggregate`
(aggregator.py lines 42-47). -/
def key4 (mr : MetricResult) : String × String × String × String :=
  (mr.metric_name, mr.evaluator_model, mr.quiz_id, pyOrStr mr.question_id "quiz_level")

/-- The nested `for result in results: for metric in result.metrics` iteration
order, flattened. -/
def flatMetrics (results : List BenchmarkResult) : List MetricResult :=
  (results.map (·.metrics)).flatten

/-- `ResultsAggregator.aggregate` (aggregator.py lines 18-79): empty-input
check, metadata extraction, grouping by the four-component key, regrouping to
`(metric_name, evaluator_model)`, and one `MetricAggregation` per overall
group keyed by `f"{metric_name}_{evaluator_model}"`.  Python's
`list(set(...))` for `quiz_ids` has unspecified order; it is modelled as
first-occurrence deduplication (no verified statement reads its order). -/
noncomputable def aggregate (results : List BenchmarkResult) (benchmark_name : String) :
    Except String AggregatedResults :=
  match results with
  | [] => .error "Cannot aggregate empty results list"
  | r0 :: _ =>
      let grouped_scores := groupByKey key4 (·.score) (flatMetrics results)
      let overall_groups := regroup (fun k => (k.1, k.2.1)) grouped_scores
      let aggregations := overall_groups.foldl
        (fun acc p => assocSet acc (p.1.1 ++ "_" ++ p.1.2) (aggEntry p.1.1 p.1.2 p.2)) []
      pure { benchmark_config_name := benchmark_name,
             benchmark_version := r0.benchmark_version,
             quiz_ids := (results.map (·.quiz_id)).dedup,
             total_runs := ((results.map (·.run_number)).dedup).length,
             aggregations }

/-- `ResultsAggregator.aggregate_by_metric` (aggregator.py lines 105-141):
filter to one metric, group scores by evaluator, one `MetricAggregation` per
(nonempty — the `if scores:` guard) evaluator bucket. -/
noncomputable def aggregate_by_metric (results : List BenchmarkResult) (metric_name : String) :
    List (String × MetricAggregation) :=
  let by_evaluator := groupByKey (fun mr => mr.evaluator_model) (·.score)
    ((flatMetrics results).filter (fun mr => mr.metric_name = metric_name))
  by_evaluator.foldl
    (fun acc p => if p.2 ≠ [] then assocSet acc p.1 (aggEntry metric_name p.1 p.2) else acc)
    []

/-- The per-evaluator statistics mapping built by
`ResultsAggregator.compare_evaluators` (values of the comparison dict). -/
structure ComparisonStats where
  mean : ℚ
  median : ℚ
  std_dev : ℝ
  min : ℚ
  max : ℚ
  num_evaluations : ℕ

/-- `ResultsAggregator.compare_evaluators` (aggregator.py lines 143-169):
reshape `aggregate_by_metric`'s output into a plain per-evaluator mapping;
`"num_evaluations"` is the aggregation's `num_runs`. -/
noncomputable def compare_evaluators (results : List BenchmarkResult) (metric_name : String) :
    List (String × ComparisonStats) :=
  (aggregate_by_metric results metric_name).foldl
    (fun acc p => assocSet acc p.1
      { mean := p.2.mean, median := p.2.median, std_dev := p.2.std_dev,
        min := p.2.min, max := p.2.max, num_evaluations := p.2.num_runs })
    []

/-! ### Concrete data used by scenarios and witnesses -/

/-- A question-level `MetricResult` for the difficulty/mock scenario. -/
def scnMR (s : ℚ) : MetricResult :=
  { metric_name := "difficulty", metric_version := "1.0", score := s,
    evaluator_model := "mock", quiz_id := "quiz_1", question_id := some "q1" }

/-- A one-metric `BenchmarkResult` for the difficulty/mock scenario. -/
def scnBR (n : ℤ) (s : ℚ) : BenchmarkResult :=
  { benchmark_id := "b", benchmark_version := "1.0", config_hash := "h",
    quiz_id := "quiz_1", run_number := n, metrics := [scnMR s] }

/-- The spec's aggregation scenario: scores 40.0 and 60.0 for metric
`"difficulty"`, evaluator `"mock"`, from runs 1 and 2. -/
def scnResults : List BenchmarkResult := [scnBR 1 40, scnBR 2 60]

end QuizBench

namespace QuizBench

/-! ## Theorems -/

/-- **C6.** For every value of the coverage metric's `granularity` parameter
the four sub-score weights sum to 100; `broad` gives breadth 40 / depth 20 /
balance 20 / critical 20, `detailed` gives breadth 20 / depth 40 / balance 20
/ critical 20, and `balanced` — the declared default — like every other
string gives breadth 30 / depth 30 / balance 20 / critical 20. -/
theorem coverage_weights_spec (g : String) :
    (get_weights g).breadth + (get_weights g).depth + (get_weights g).balance +
        (get_weights g).critical = 100
    ∧ get_weights "broad" = { breadth := 40, depth := 20, balance := 20, critical := 20 }
    ∧ get_weights "detailed" = { breadth := 20, depth := 40, balance := 20, critical := 20 }
    ∧ get_weights "balanced" = { breadth := 30, depth := 30, balance := 20, critical := 20 }
    ∧ coverage_granularity_default = "balanced"
    ∧ (g ≠ "broad" → g ≠ "detailed" →
        get_weights g = { breadth := 30, depth := 30, balance := 20, critical := 20 }) := by
  have hcases : ∀ s : String,
      (get_weights s).breadth + (get_weights s).depth + (get_weights s).balance +
        (get_weights s).critical = 100 := by
    intro s
    unfold get_weights
    split_ifs <;> rfl
  refine ⟨hcases g, by simp [get_weights], by simp [get_weights], by simp [get_weights],
    rfl, fun hb hd => ?_⟩
  unfold get_weights
  simp [hb, hd]

/-- Witness for **C6** at the concrete granularity `"weird"`. -/
theorem coverage_weights_spec_witness :
    get_weights "weird" = { breadth := 30, depth := 30, balance := 20, critical := 20 } :=
  (coverage_weights_spec "weird").2.2.2.2.2 (by simp) (by simp)

/-- **C8.** Construction of a `QuizQuestion` succeeds exactly when the type
invariant holds (true/false ⇒ options `["True","False"]`; multiple-choice ⇒
list-valued answer; otherwise string-valued answer), and every successfully
constructed question carries its inputs unchanged and satisfies the
invariant; every violating combination is rejected with an error. -/
theorem quiz_question_post_init (qid : String) (qt : QuestionType) (txt : String)
    (opts : List String) (ans : String ⊕ List String) (sr : Option String) :
    ((∃ q, mkQuizQuestion qid qt txt opts ans sr = Except.ok q) ↔
        QuestionInvariant qt opts ans)
    ∧ (∀ q, mkQuizQuestion qid qt txt opts ans sr = Except.ok q →
        q.question_type = qt ∧ q.options = opts ∧ q.correct_answer = ans ∧
          QuestionInvariant q.question_type q.options q.correct_answer) := by
  have key : ∀ q, mkQuizQuestion qid qt txt opts ans sr = Except.ok q →
      (q.question_type = qt ∧ q.options = opts ∧ q.correct_answer = ans) ∧
        QuestionInvariant qt opts ans := by
    intro q hq
    cases qt <;> rcases ans with s | l
    · exact absurd hq (by simp [mkQuizQuestion])
    · simp [mkQuizQuestion, pure, Except.pure] at hq
      rw [← hq]
      exact ⟨by simp, by simp [QuestionInvariant]⟩
    · simp [mkQuizQuestion, pure, Except.pure] at hq
      rw [← hq]
      exact ⟨by simp, by simp [QuestionInvariant]⟩
    · exact absurd hq (by simp [mkQuizQuestion])
    · by_cases hopts : opts = ["True", "False"]
      · simp [mkQuizQuestion, pure, Except.pure, hopts] at hq
        rw [← hq]
        exact ⟨by simp [hopts], by simp [QuestionInvariant, hopts]⟩
      · simp [mkQuizQuestion, hopts] at hq
    · exact absurd hq (by simp [mkQuizQuestion])
  have succ : QuestionInvariant qt opts ans →
      ∃ q, mkQuizQuestion qid qt txt opts ans sr = Except.ok q := by
    rintro ⟨htf, hmc, hother⟩
    cases qt <;> rcases ans with s | l
    · obtain ⟨l', hl⟩ := hmc rfl
      exact absurd hl (by simp)
    · exact ⟨_, rfl⟩
    · exact ⟨_, rfl⟩
    · obtain ⟨s', hs⟩ := hother (by simp)
      exact absurd hs (by simp)
    · have hopts := htf rfl
      subst hopts
      exact ⟨_, rfl⟩
    · obtain ⟨s', hs⟩ := hother (by simp)
      exact absurd hs (by simp)
  constructor
  · exact ⟨fun ⟨q, hq⟩ => (key q hq).2, succ⟩
  · intro q hq
    obtain ⟨⟨h1, h2, h3⟩, hinv⟩ := key q hq
    exact ⟨h1, h2, h3, by rwa [h1, h2, h3]⟩

/-- Witness for **C8**: a concrete true/false question with options
`["True","False"]` and a string answer is accepted and satisfies the
invariant. -/
theorem quiz_question_post_init_witness :
    QuestionInvariant QuestionType.true_false ["True", "False"] (Sum.inl "True") :=
  ((quiz_question_post_init "q2" QuestionType.true_false "Python is a snake."
      ["True", "False"] (Sum.inl "True") none).1.mp
    ⟨{ question_id := "q2", question_type := QuestionType.true_false,
       question_text := "Python is a snake.", options := ["True", "False"],
       correct_answer := Sum.inl "True", source_reference := none }, rfl⟩)

/-! ### Helper lemmas for inverting the orchestrator -/

/-- Inversion for a successful `Except` bind. -/
theorem except_bind_ok {ε α β : Type} {e : Except ε α} {f : α → Except ε β} {b : β}
    (h : e >>= f = Except.ok b) : ∃ a, e = Except.ok a ∧ f a = Except.ok b := by
  cases e with
  | error err => simp [Bind.bind, Except.bind] at h
  | ok a => exact ⟨a, rfl, by simpa [Bind.bind, Except.bind] using h⟩

/-- Full inversion of a successful `evaluate` call: the context that was
generated, the final prompt, and the exact shape of the returned result. -/
theorem evaluate_ok_elim {R : Type} {m : Metric R} {question : Option QuizQuestion}
    {quiz : Option Quiz} {source_text : Option String} {llm : String → R}
    {r : EvaluationResult R}
    (h : evaluate m question quiz source_text (some llm) = Except.ok r) :
    ∃ ctx, contextOf m source_text llm = Except.ok ctx ∧
      ∃ prompt, m.get_prompt question quiz source_text
          (perQuestionResultsOf m quiz source_text ctx llm) ctx = Except.ok prompt ∧
        m.parse_structured_response (llm prompt) = Except.ok r.score ∧
        r = { score := r.score, raw_response := llm prompt,
              metadata := { evaluation_context := ctx,
                            structured_response := llm prompt,
                            per_question_results :=
                              perQuestionResultsOf m quiz source_text ctx llm } } := by
  simp only [evaluate] at h
  obtain ⟨ctx, hctx, h⟩ := except_bind_ok h
  obtain ⟨prompt, hprompt, h⟩ := except_bind_ok h
  dsimp only [run_stage, List.map_cons, List.map_nil] at h
  obtain ⟨s0, hs0, h⟩ := except_bind_ok h
  obtain ⟨score, hscore, h⟩ := except_bind_ok h
  simp only [pure, Except.pure, Except.ok.injEq] at hs0 h
  subst hs0
  subst h
  exact ⟨ctx, hctx, prompt, hprompt, hscore, rfl⟩

/-- The number of elements a `filterMap` keeps is the count of inputs on
which the function is `some`. -/
theorem length_filterMap_eq_countP {α β : Type} (f : α → Option β) (l : List α) :
    (l.filterMap f).length = l.countP (fun a => (f a).isSome) := by
  induction l with
  | nil => rfl
  | cons x xs ih =>
      cases hx : f x <;>
        simp [List.filterMap_cons, hx, List.countP_cons, ih]

/-! ### Concrete metrics and quizzes exercising the orchestrator -/

/-- A single-choice question with the given id. -/
def scQuestion (qid : String) : QuizQuestion :=
  { question_id := qid, question_type := QuestionType.single_choice,
    question_text := "What is 2+2?", options := ["2", "3", "4", "5"],
    correct_answer := Sum.inl "4" }

/-- A two-question quiz. -/
def twoQuestionQuiz : Quiz :=
  { quiz_id := "quiz_1", title := "Test Quiz", source_material := "source.md",
    questions := [scQuestion "q1", scQuestion "q2"] }

/-- A metric with a per-question fan-out stage that — as
`get_per_question_prompt`'s contract explicitly allows ("Returns: Prompt
string, or None to skip this question") — skips every question except
`"q1"`. -/
def skippingMetric : Metric ℚ :=
  { name := "fanout_skip",
    get_per_question_prompt := fun q _ _ =>
      if q.question_id = "q1" then some "analyze q1" else none,
    get_prompt := fun _ _ _ _ _ => pure "final scoring prompt",
    parse_structured_response := fun resp => pure resp }

/-- A metric whose per-question fan-out stage produces a prompt for every
question. -/
def fanOutMetric : Metric ℚ :=
  { name := "fanout",
    get_per_question_prompt := fun _ _ _ => some "analyze question",
    get_prompt := fun _ _ _ _ _ => pure "final scoring prompt",
    parse_structured_response := fun resp => pure resp }

/-- **C1 (counterexample).** For the fan-out metric that skips question
`"q2"`, `evaluate` on the two-question quiz collects a per-question results
list of length 1, not one entry per question: the claimed "length equals the
number of questions" fails. -/
theorem fan_out_results_counterexample :
    (evaluate skippingMetric none (some twoQuestionQuiz) none
        (some (fun _ => (50 : ℚ)))).map
        (fun r => (r.metadata.per_question_results).map List.length)
      = Except.ok (some 1)
    ∧ twoQuestionQuiz.questions.length = 2 := ⟨rfl, rfl⟩

/-- **C1 (amended).** For every metric and every quiz passed to `evaluate`,
the collected per-question results list (when the fan-out stage ran) holds
exactly one structured response per question whose per-question prompt is
non-`None`, in quiz order — its length is the count of non-skipped
questions, and it equals the number of questions whenever no question is
skipped. -/
theorem fan_out_results_spec {R : Type} (m : Metric R) (question : Option QuizQuestion)
    (qz : Quiz) (source_text : Option String) (llm : String → R)
    (r : EvaluationResult R)
    (h : evaluate m question (some qz) source_text (some llm) = Except.ok r) :
    r.metadata.per_question_results =
        perQuestionResultsOf m (some qz) source_text r.metadata.evaluation_context llm
    ∧ (∀ rs, r.metadata.per_question_results = some rs →
        rs = qz.questions.filterMap
            (fun q => (m.get_per_question_prompt q (pyOrEmpty source_text)
                r.metadata.evaluation_context).map llm)
        ∧ rs.length = qz.questions.countP
            (fun q => (m.get_per_question_prompt q (pyOrEmpty source_text)
                r.metadata.evaluation_context).isSome)
        ∧ ((∀ q ∈ qz.questions,
              (m.get_per_question_prompt q (pyOrEmpty source_text)
                r.metadata.evaluation_context).isSome) →
            rs.length = qz.questions.length)) := by
  obtain ⟨ctx, hctx, prompt, hprompt, hscore, hr⟩ := evaluate_ok_elim h
  have hmeta : r.metadata.evaluation_context = ctx := by rw [hr]
  have hpq : r.metadata.per_question_results =
      perQuestionResultsOf m (some qz) source_text ctx llm := by rw [hr]
  refine ⟨by rw [hmeta, hpq], fun rs hrs => ?_⟩
  rw [hpq] at hrs
  rw [hmeta]
  simp only [perQuestionResultsOf] at hrs
  split at hrs
  · rename_i hany
    simp only [Option.some.injEq] at hrs
    subst hrs
    have hform : (perQuestionPrompts m qz source_text ctx).filterMap id
        = qz.questions.filterMap
            (fun q => m.get_per_question_prompt q (pyOrEmpty source_text) ctx) := by
      simp [perQuestionPrompts, List.filterMap_map]
    have heq : run_stage ((perQuestionPrompts m qz source_text ctx).filterMap id) llm
        = qz.questions.filterMap
            (fun q => (m.get_per_question_prompt q (pyOrEmpty source_text) ctx).map llm) := by
      rw [run_stage, hform, List.map_filterMap]
    refine ⟨heq, ?_, ?_⟩
    · rw [heq, length_filterMap_eq_countP]
      exact List.countP_congr (fun q _ => by simp)
    · intro hall
      rw [heq, length_filterMap_eq_countP]
      exact List.countP_eq_length.mpr (fun q hq => by simp [hall q hq])
  · exact absurd hrs (by simp)

/-- Witness for **C1 (amended)** at the no-skip fan-out metric on the
two-question quiz: the results list has one entry per question. -/
theorem fan_out_results_spec_witness :
    ∃ rs, some rs = (some [(50 : ℚ), 50] : Option (List ℚ)) ∧ rs.length = 2 := by
  have h := fan_out_results_spec fanOutMetric none twoQuestionQuiz none
    (fun _ => (50 : ℚ))
    { score := 50, raw_response := 50,
      metadata := { evaluation_context := [], structured_response := 50,
                    per_question_results := some [50, 50] } } rfl
  refine ⟨[50, 50], rfl, ?_⟩
  exact (h.2 [50, 50] (by rw [h.1]; rfl)).2.2 (fun q _ => by simp [fanOutMetric])

/-- **C2 (code behaviour at the failing input).** `BaseMetric.evaluate` in
`src/metrics/base.py` raises no configuration error when a metric with a
per-question fan-out stage is invoked with `quiz=None`: the call succeeds
and the fan-out stage is silently skipped (`per_question_results = None`),
contradicting the spec and the repository's own test
`test_coverage_evaluate_requires_quiz`, which expect a "requires a quiz"
error naming the phase. -/
theorem fan_out_quiz_none_no_error :
    evaluate fanOutMetric none none (some "text") (some (fun _ => (50 : ℚ)))
      = Except.ok { score := 50, raw_response := 50,
                    metadata := { evaluation_context := [], structured_response := 50,
                                  per_question_results := none } } := rfl

/-- **C3 (counterexample).** The coverage validator is not exact: a response
whose `final_score` (40.5) differs from the sum of the sub-scores (40) by
0.5 is accepted, refuting "any response in which final_score differs from
that sum is rejected". -/
theorem coverage_final_score_counterexample :
    final_score_matches_sub_scores
        (some { breadth := 10, depth := 10, balance := 10, critical := 10 }) (81 / 2)
      = Except.ok (81 / 2)
    ∧ (81 / 2 : ℚ) ≠ 10 + 10 + 10 + 10 := by
  constructor
  · simp only [final_score_matches_sub_scores]
    split_ifs with h
    · exfalso
      rw [show (81 / 2 : ℚ) - (10 + 10 + 10 + 10) = 1 / 2 by norm_num] at h
      rw [abs_of_nonneg (by norm_num : (0 : ℚ) ≤ 1 / 2)] at h
      norm_num at h
    · rfl
  · norm_num

/-- **C3 (amended).** The coverage validator accepts a reported `final_score`
iff it is within 1.0 of the sum of the four sub-scores, returns the accepted
value unchanged (never silently corrected), and rejects with an error
whenever the difference exceeds 1.0. -/
theorem coverage_final_score_validator (sub : SubScores) (v : ℚ) :
    (final_score_matches_sub_scores (some sub) v = Except.ok v ↔
        |v - (sub.breadth + sub.depth + sub.balance + sub.critical)| ≤ 1)
    ∧ (|v - (sub.breadth + sub.depth + sub.balance + sub.critical)| > 1 →
        final_score_matches_sub_scores (some sub) v =
          Except.error "final_score does not match sum of sub_scores")
    ∧ (∀ w, final_score_matches_sub_scores (some sub) v = Except.ok w → w = v) := by
  by_cases h : |v - (sub.breadth + sub.depth + sub.balance + sub.critical)| > 1
  · refine ⟨?_, fun _ => ?_, fun w hw => ?_⟩
    · simp only [final_score_matches_sub_scores]
      rw [if_pos h]
      simp [not_le.mpr h]
    · simp only [final_score_matches_sub_scores]
      rw [if_pos h]
    · simp only [final_score_matches_sub_scores] at hw
      rw [if_pos h] at hw
      exact absurd hw (by simp)
  · refine ⟨?_, fun hcontra => absurd hcontra h, fun w hw => ?_⟩
    · simp only [final_score_matches_sub_scores]
      rw [if_neg h]
      simp [pure, Except.pure, not_lt.mp h]
    · simp only [final_score_matches_sub_scores] at hw
      rw [if_neg h] at hw
      simp [pure, Except.pure] at hw
      exact hw.symm

/-- Witness for **C3**: a `final_score` of 42 against sub-scores summing to 40
(difference 2 > 1) is rejected. -/
theorem coverage_final_score_validator_witness :
    final_score_matches_sub_scores
        (some { breadth := 10, depth := 10, balance := 10, critical := 10 }) 42
      = Except.error "final_score does not match sum of sub_scores" :=
  (coverage_final_score_validator
      { breadth := 10, depth := 10, balance := 10, critical := 10 } 42).2.1 (by norm_num)

/-- A metric that uses the base class's default score extractor
(`BaseMetric.parse_structured_response`) and no fan-out. -/
def scoreOnlyMetric : Metric StructuredDict :=
  { name := "score_only",
    get_prompt := fun _ _ _ _ _ => pure "score prompt",
    parse_structured_response := parse_structured_response }

/-- An LLM client whose structured response carries the fractional score
42.123. -/
def llmFractional : String → StructuredDict :=
  fun _ => [("score", SVal.num (42123 / 1000))]

/-- **C4 (counterexample).** A successful `evaluate` call returns the score
42.123 exactly as extracted from the structured response; rounding it to one
decimal place would give 42.1 ≠ 42.123, so the returned score is *not* the
extracted score rounded to one decimal place. -/
theorem evaluate_no_rounding_counterexample :
    (evaluate scoreOnlyMetric none none none (some llmFractional)).map (·.score)
      = Except.ok (42123 / 1000)
    ∧ pyRound1 (42123 / 1000) = 421 / 10
    ∧ (42123 / 1000 : ℚ) ≠ 421 / 10 := by
  refine ⟨?_, ?_, by norm_num⟩
  · simp only [evaluate, scoreOnlyMetric, llmFractional, contextOf, pyTruthyStr,
      perQuestionResultsOf, run_stage, parse_structured_response, dictGet,
      List.find?, List.map_cons, List.map_nil, svalToFloat,
      Bind.bind, Except.bind, pure, Except.pure, Except.map]
    norm_num
  have h1 : round ((10 : ℚ) * (42123 / 1000)) = 421 := by
    rw [show (10 : ℚ) * (42123 / 1000) = 42123 / 100 by norm_num, round_eq,
      show (42123 / 100 : ℚ) + 1 / 2 = 42173 / 100 by norm_num]
    exact Int.floor_eq_iff.mpr (by norm_num)
  rw [pyRound1, h1]
  norm_num

/-- **C4 (amended).** For every successful `evaluate` call the returned
score is exactly the value the metric's `parse_structured_response` extracts
from the final structured response — no rounding is applied; the default
extractor returns the `score` field's raw value after a [0,100] range check,
while one-decimal rounding exists only in `CoverageMetric.parse_score`,
which `evaluate` does not invoke. -/
theorem evaluate_score_unrounded {R : Type} (m : Metric R) (question : Option QuizQuestion)
    (quiz : Option Quiz) (source_text : Option String) (llm : String → R)
    (r : EvaluationResult R)
    (h : evaluate m question quiz source_text (some llm) = Except.ok r) :
    m.parse_structured_response r.metadata.structured_response = Except.ok r.score
    ∧ (∀ d q, parse_structured_response d = Except.ok q →
        dictGet d "score" = some (SVal.num q) ∧ 0 ≤ q ∧ q ≤ 100)
    ∧ (∀ d s, coverage_parse_score d = Except.ok s →
        ∃ v, dictGet d "final_score" = some (SVal.num v) ∧ s = pyRound1 v
          ∧ 0 ≤ v ∧ v ≤ 100) := by
  obtain ⟨ctx, hctx, prompt, hprompt, hscore, hr⟩ := evaluate_ok_elim h
  refine ⟨by rw [hr]; exact hscore, fun d q hq => ?_, fun d s hs => ?_⟩
  · simp only [parse_structured_response] at hq
    cases hv : dictGet d "score" with
    | none =>
        rw [hv] at hq
        simp [Bind.bind, Except.bind] at hq
    | some v =>
        rw [hv] at hq
        cases v with
        | str s =>
            simp [svalToFloat, Bind.bind, Except.bind, pure, Except.pure] at hq
        | num qv =>
            simp only [svalToFloat, Bind.bind, Except.bind, pure, Except.pure] at hq
            split at hq
            · rename_i hrange
              simp only [Except.ok.injEq] at hq
              subst hq
              exact ⟨rfl, hrange.1, hrange.2⟩
            · simp at hq
  · simp only [coverage_parse_score] at hs
    cases hv : dictGet d "final_score" with
    | none =>
        rw [hv] at hs
        simp [Bind.bind, Except.bind] at hs
    | some v =>
        rw [hv] at hs
        cases v with
        | str str =>
            simp [svalToFloat, Bind.bind, Except.bind, pure, Except.pure] at hs
        | num qv =>
            simp only [svalToFloat, Bind.bind, Except.bind, pure, Except.pure] at hs
            split at hs
            · rename_i hrange
              simp only [Except.ok.injEq] at hs
              exact ⟨qv, rfl, hs.symm, hrange.1, hrange.2⟩
            · simp at hs

/-- Witness for **C4 (amended)** at the fractional-score client: the
returned score 42.123 is exactly what the default extractor reads from the
response. -/
theorem evaluate_score_unrounded_witness :
    scoreOnlyMetric.parse_structured_response
        [("score", SVal.num (42123 / 1000))] = Except.ok (42123 / 1000) := by
  have h : evaluate scoreOnlyMetric none none none (some llmFractional)
      = Except.ok { score := 42123 / 1000,
                    raw_response := [("score", SVal.num (42123 / 1000))],
                    metadata := { evaluation_context := [],
                                  structured_response :=
                                    [("score", SVal.num (42123 / 1000))],
                                  per_question_results := none } } := by
    simp only [evaluate, scoreOnlyMetric, llmFractional, contextOf, pyTruthyStr,
      perQuestionResultsOf, run_stage, parse_structured_response, dictGet,
      List.find?, List.map_cons, List.map_nil, svalToFloat,
      Bind.bind, Except.bind, pure, Except.pure]
    norm_num
  exact (evaluate_score_unrounded scoreOnlyMetric none none none llmFractional _ h).1

/-- **C9.** Calling `evaluate` with `source_text = ""` behaves, with respect
to context generation, exactly like calling it with `source_text` absent:
the metric's `generate_context` hook is never consulted (the result is the
same for every possible hook) and the evaluation context recorded in the
result's metadata is the empty mapping in both cases. -/
theorem empty_source_text_skips_context {R : Type} (m : Metric R)
    (gc : Option String → (String → R) → Except String StructuredDict)
    (question : Option QuizQuestion) (quiz : Option Quiz) (llm : String → R) :
    evaluate { m with generate_context := gc } question quiz (some "") (some llm)
      = evaluate m question quiz (some "") (some llm)
    ∧ (∀ r, evaluate m question quiz (some "") (some llm) = Except.ok r →
        r.metadata.evaluation_context = [])
    ∧ (∀ r, evaluate m question quiz none (some llm) = Except.ok r →
        r.metadata.evaluation_context = []) := by
  refine ⟨rfl, fun r h => ?_, fun r h => ?_⟩
  · obtain ⟨ctx, hctx, prompt, hprompt, hscore, hr⟩ := evaluate_ok_elim h
    have hctxnil : ctx = [] := by
      have hc : contextOf m (some "") llm = Except.ok [] := rfl
      rw [hc] at hctx
      exact (Except.ok.inj hctx).symm
    rw [hr]
    exact hctxnil
  · obtain ⟨ctx, hctx, prompt, hprompt, hscore, hr⟩ := evaluate_ok_elim h
    have hctxnil : ctx = [] := by
      have hc : contextOf m none llm = Except.ok [] := rfl
      rw [hc] at hctx
      exact (Except.ok.inj hctx).symm
    rw [hr]
    exact hctxnil

/-- Witness for **C9** at a concrete metric and client: evaluating with the
empty-string source succeeds and records the empty context. -/
theorem empty_source_text_skips_context_witness :
    evaluate fanOutMetric none none (some "") (some (fun _ => (50 : ℚ)))
      = Except.ok { score := 50, raw_response := 50,
                    metadata := { evaluation_context := [], structured_response := 50,
                                  per_question_results := none } }
    ∧ ({ score := 50, raw_response := 50,
         metadata := { evaluation_context := [], structured_response := 50,
                       per_question_results := none } } :
        EvaluationResult ℚ).metadata.evaluation_context = [] :=
  ⟨rfl, (empty_source_text_skips_context fanOutMetric (fun _ _ => Except.error "boom")
      none none (fun _ => (50 : ℚ))).2.1 _ rfl⟩

/-- **C7.** `aggregate` on the empty results list fails with the empty-input
error (before any statistic is computed — the error is the first branch of
the function), and on any non-empty list it returns a result, never raising
for that reason. -/
theorem aggregate_empty_input (name : String) (rs : List BenchmarkResult) :
    aggregate [] name = Except.error "Cannot aggregate empty results list"
    ∧ (rs ≠ [] → ∃ a, aggregate rs name = Except.ok a) := by
  refine ⟨rfl, fun h => ?_⟩
  cases rs with
  | nil => exact absurd rfl h
  | cons r rest => exact ⟨_, rfl⟩

/-- Witness for **C7**: the two-run scenario input is non-empty and
aggregates successfully. -/
theorem aggregate_empty_input_witness :
    ∃ a, aggregate scnResults "test" = Except.ok a :=
  (aggregate_empty_input "test" scnResults).2 (by simp [scnResults])

/-! ### Grouping lemmas

`aggregate` buckets scores with `defaultdict(list)` semantics; these lemmas
characterise every bucket of such a grouping as a filtered sublist of the
input, and the concatenation of the buckets of one regrouped key as a
permutation of the matching inputs. -/

/-- The keys of an association list, in order. -/
def keysOf {κ β : Type} (gs : List (κ × β)) : List κ := gs.map (·.1)

theorem bucketOf_cons {κ β : Type} [DecidableEq κ] (a : κ) (bs : List β)
    (t : List (κ × List β)) (k : κ) :
    bucketOf ((a, bs) :: t) k = if a = k then bs else bucketOf t k := by
  by_cases h : a = k <;> simp [bucketOf, List.find?_cons, h]

theorem bucketOf_addGroup {κ β : Type} [DecidableEq κ] (gs : List (κ × List β))
    (k' k : κ) (vs : List β) :
    bucketOf (addGroup gs k' vs) k
      = if k' = k then bucketOf gs k ++ vs else bucketOf gs k := by
  induction gs with
  | nil =>
      by_cases h : k' = k <;> simp [addGroup, bucketOf_cons, bucketOf, h]
  | cons p t ih =>
      obtain ⟨a, bs⟩ := p
      simp only [addGroup]
      by_cases hak : a = k'
      · rw [if_pos hak]
        subst hak
        by_cases h : a = k <;> simp [bucketOf_cons, h]
      · rw [if_neg hak]
        by_cases h : a = k
        · subst h
          have hk : k' ≠ a := fun hh => hak hh.symm
          simp [bucketOf_cons, hk]
        · simp [bucketOf_cons, h, ih]

theorem keysOf_addGroup {κ β : Type} [DecidableEq κ] (gs : List (κ × List β))
    (k : κ) (vs : List β) :
    keysOf (addGroup gs k vs)
      = if k ∈ keysOf gs then keysOf gs else keysOf gs ++ [k] := by
  induction gs with
  | nil => simp [addGroup, keysOf]
  | cons p t ih =>
      obtain ⟨a, bs⟩ := p
      simp only [addGroup]
      by_cases hak : a = k
      · subst hak
        simp [keysOf]
      · rw [if_neg hak]
        simp only [keysOf, List.map_cons] at ih ⊢
        rw [ih]
        by_cases hm : k ∈ List.map (fun x => x.1) t
        · rw [if_pos hm, if_pos (List.mem_cons_of_mem a hm)]
        · rw [if_neg hm, if_neg (fun hmem => by
            rcases List.mem_cons.mp hmem with h | h
            exacts [hak h.symm, hm h])]
          simp

theorem mem_keysOf_addGroup {κ β : Type} [DecidableEq κ] (gs : List (κ × List β))
    (k k' : κ) (vs : List β) :
    k' ∈ keysOf (addGroup gs k vs) ↔ k' ∈ keysOf gs ∨ k' = k := by
  rw [keysOf_addGroup]
  split
  · rename_i hm
    constructor
    · exact Or.inl
    · rintro (h | rfl)
      · exact h
      · exact hm
  · simp

theorem nodup_keysOf_addGroup {κ β : Type} [DecidableEq κ] (gs : List (κ × List β))
    (k : κ) (vs : List β) (h : (keysOf gs).Nodup) :
    (keysOf (addGroup gs k vs)).Nodup := by
  rw [keysOf_addGroup]
  split
  · exact h
  · rename_i hm
    simp [List.nodup_append, h, hm]

section GroupFold

variable {γ κ β : Type} [DecidableEq κ]

/-- Bucket contents of a generic `defaultdict(list)` grouping loop. -/
theorem bucketOf_foldl_addGroup (f : γ → κ) (g : γ → List β) (l : List γ)
    (acc : List (κ × List β)) (k : κ) :
    bucketOf (l.foldl (fun a c => addGroup a (f c) (g c)) acc) k
      = bucketOf acc k ++ ((l.filter (fun c => f c = k)).map g).flatten := by
  induction l generalizing acc with
  | nil => simp
  | cons c t ih =>
      simp only [List.foldl_cons]
      rw [ih, bucketOf_addGroup]
      by_cases h : f c = k <;>
        simp [List.filter_cons, h, List.append_assoc]

/-- Key membership for a generic grouping loop. -/
theorem mem_keysOf_foldl_addGroup (f : γ → κ) (g : γ → List β) (l : List γ)
    (acc : List (κ × List β)) (k : κ) :
    k ∈ keysOf (l.foldl (fun a c => addGroup a (f c) (g c)) acc)
      ↔ k ∈ keysOf acc ∨ ∃ c ∈ l, f c = k := by
  induction l generalizing acc with
  | nil => simp
  | cons c t ih =>
      simp only [List.foldl_cons]
      rw [ih, mem_keysOf_addGroup]
      constructor
      · rintro ((h | rfl) | ⟨c', hc', rfl⟩)
        · exact Or.inl h
        · exact Or.inr ⟨c, by simp⟩
        · exact Or.inr ⟨c', by simp [hc']⟩
      · rintro (h | ⟨c', hc', rfl⟩)
        · exact Or.inl (Or.inl h)
        · rcases List.mem_cons.mp hc' with rfl | hc'
          · exact Or.inl (Or.inr rfl)
          · exact Or.inr ⟨c', hc', rfl⟩

/-- Key distinctness for a generic grouping loop. -/
theorem nodup_keysOf_foldl_addGroup (f : γ → κ) (g : γ → List β) (l : List γ)
    (acc : List (κ × List β)) (h : (keysOf acc).Nodup) :
    (keysOf (l.foldl (fun a c => addGroup a (f c) (g c)) acc)).Nodup := by
  induction l generalizing acc with
  | nil => exact h
  | cons c t ih =>
      simp only [List.foldl_cons]
      exact ih _ (nodup_keysOf_addGroup _ _ _ h)

end GroupFold

/-- With distinct keys, an entry of the association list is its own key's
bucket. -/
theorem bucketOf_of_mem {κ β : Type} [DecidableEq κ] {gs : List (κ × List β)}
    (hnd : (keysOf gs).Nodup) {k : κ} {vs : List β} (h : (k, vs) ∈ gs) :
    bucketOf gs k = vs := by
  induction gs with
  | nil => cases h
  | cons p t ih =>
      obtain ⟨a, bs⟩ := p
      rcases List.mem_cons.mp h with heq | hmem
      · obtain ⟨rfl, rfl⟩ := Prod.mk.injEq .. ▸ heq
        injection heq with h1 h2
        rw [bucketOf_cons, if_pos rfl]
      · have hanek : a ≠ k := by
          intro hak
          subst hak
          have : a ∈ keysOf t := List.mem_map_of_mem (·.1) hmem
          exact (List.nodup_cons.mp (by simpa [keysOf] using hnd)).1 this
        rw [bucketOf_cons, if_neg hanek]
        exact ih (by simpa [keysOf] using (List.nodup_cons.mp
          (by simpa [keysOf] using hnd)).2) hmem

/-- Flattening a list of singletons is a map. -/
theorem flatten_map_singleton {α β : Type} (l : List α) (h : α → β) :
    (l.map (fun x => [h x])).flatten = l.map h := by
  induction l with
  | nil => rfl
  | cons x t ih => simp [ih]

/-- Dict buckets of `groupByKey`: each key holds the values of exactly its
matching inputs, in input order. -/
theorem bucketOf_groupByKey {α κ β : Type} [DecidableEq κ] (key : α → κ)
    (val : α → β) (xs : List α) (k : κ) :
    bucketOf (groupByKey key val xs) k = (xs.filter (fun x => key x = k)).map val := by
  rw [groupByKey, bucketOf_foldl_addGroup key (fun x => [val x]) xs [] k]
  simp [bucketOf, flatten_map_singleton]

/-- Dict buckets of `regroup`: a regrouped key holds the concatenation of
the buckets of the first-stage keys that project onto it, in first-stage
order. -/
theorem bucketOf_regroup {κ κ₂ β : Type} [DecidableEq κ₂] (proj : κ → κ₂)
    (gs : List (κ × List β)) (k2 : κ₂) :
    bucketOf (regroup proj gs) k2
      = ((gs.filter (fun p => proj p.1 = k2)).map (·.2)).flatten := by
  rw [regroup, bucketOf_foldl_addGroup (fun p => proj p.1) (fun p => p.2) gs [] k2]
  simp [bucketOf]

/-! ### Statistics are invariant under permutation of the score list -/

theorem pyMean_perm {l₁ l₂ : List ℚ} (h : l₁.Perm l₂) : pyMean l₁ = pyMean l₂ := by
  rw [pyMean, pyMean, h.sum_eq, h.length_eq]

theorem mergeSort_perm_congr {l₁ l₂ : List ℚ} (h : l₁.Perm l₂) :
    l₁.mergeSort (fun a b => a ≤ b) = l₂.mergeSort (fun a b => a ≤ b) := by
  apply List.eq_of_perm_of_sorted (r := fun a b : ℚ => a ≤ b)
  · exact ((List.mergeSort_perm l₁ _).trans h).trans (List.mergeSort_perm l₂ _).symm
  · have hs := @List.sorted_mergeSort ℚ (fun a b => decide (a ≤ b))
      (fun a b c => by simp only [decide_eq_true_eq]; exact le_trans)
      (fun a b => by simp only [Bool.or_eq_true, decide_eq_true_eq]; exact le_total a b) l₁
    simpa [List.Sorted, decide_eq_true_eq] using hs
  · have hs := @List.sorted_mergeSort ℚ (fun a b => decide (a ≤ b))
      (fun a b c => by simp only [decide_eq_true_eq]; exact le_trans)
      (fun a b => by simp only [Bool.or_eq_true, decide_eq_true_eq]; exact le_total a b) l₂
    simpa [List.Sorted, decide_eq_true_eq] using hs

theorem pyMedian_perm {l₁ l₂ : List ℚ} (h : l₁.Perm l₂) : pyMedian l₁ = pyMedian l₂ := by
  rw [pyMedian, pyMedian, mergeSort_perm_congr h, h.length_eq]

theorem foldl_min_le_init (xs : List ℚ) (a : ℚ) : xs.foldl Min.min a ≤ a := by
  induction xs generalizing a with
  | nil => exact le_refl a
  | cons x t ih => exact le_trans (ih (Min.min a x)) (min_le_left a x)

theorem foldl_min_le_mem (xs : List ℚ) (a x : ℚ) (hx : x ∈ xs) :
    xs.foldl Min.min a ≤ x := by
  induction xs generalizing a with
  | nil => cases hx
  | cons y t ih =>
      rcases List.mem_cons.mp hx with rfl | hmem
      · exact le_trans (foldl_min_le_init t (Min.min a x)) (min_le_right a x)
      · exact ih (Min.min a y) hmem

theorem foldl_min_mem (xs : List ℚ) (a : ℚ) :
    xs.foldl Min.min a = a ∨ xs.foldl Min.min a ∈ xs := by
  induction xs generalizing a with
  | nil => exact Or.inl rfl
  | cons x t ih =>
      rcases ih (Min.min a x) with h | h
      · rcases min_choice a x with hm | hm
        · exact Or.inl (by rw [List.foldl_cons, h, hm])
        · exact Or.inr (by rw [List.foldl_cons, h, hm]; exact List.mem_cons_self x t)
      · exact Or.inr (List.mem_cons_of_mem x h)

theorem pyMin_mem {l : List ℚ} (h : l ≠ []) : pyMin l ∈ l := by
  cases l with
  | nil => exact absurd rfl h
  | cons x t =>
      rcases foldl_min_mem t x with hm | hm
      · rw [pyMin, hm]; exact List.mem_cons_self x t
      · exact List.mem_cons_of_mem x (by rw [pyMin]; exact hm)

theorem pyMin_le {l : List ℚ} (x : ℚ) (hx : x ∈ l) : pyMin l ≤ x := by
  cases l with
  | nil => cases hx
  | cons y t =>
      rcases List.mem_cons.mp hx with rfl | hmem
      · exact foldl_min_le_init t x
      · exact foldl_min_le_mem t y x hmem

theorem pyMin_perm {l₁ l₂ : List ℚ} (h : l₁.Perm l₂) : pyMin l₁ = pyMin l₂ := by
  cases l₁ with
  | nil =>
      have h2 : l₂ = [] := h.symm.eq_nil
      rw [h2]
  | cons x t =>
      have h1 : (x :: t) ≠ [] := List.cons_ne_nil x t
      have h2 : l₂ ≠ [] := by
        intro hnil
        rw [hnil] at h
        exact h1 h.eq_nil
      exact le_antisymm
        (pyMin_le (pyMin l₂) (h.symm.subset (pyMin_mem h2)))
        (pyMin_le (pyMin (x :: t)) (h.subset (pyMin_mem h1)))

theorem foldl_max_init_le (xs : List ℚ) (a : ℚ) : a ≤ xs.foldl Max.max a := by
  induction xs generalizing a with
  | nil => exact le_refl a
  | cons x t ih => exact le_trans (le_max_left a x) (ih (Max.max a x))

theorem foldl_max_mem_le (xs : List ℚ) (a x : ℚ) (hx : x ∈ xs) :
    x ≤ xs.foldl Max.max a := by
  induction xs generalizing a with
  | nil => cases hx
  | cons y t ih =>
      rcases List.mem_cons.mp hx with rfl | hmem
      · exact le_trans (le_max_right a x) (foldl_max_init_le t (Max.max a x))
      · exact ih (Max.max a y) hmem

theorem foldl_max_mem (xs : List ℚ) (a : ℚ) :
    xs.foldl Max.max a = a ∨ xs.foldl Max.max a ∈ xs := by
  induction xs generalizing a with
  | nil => exact Or.inl rfl
  | cons x t ih =>
      rcases ih (Max.max a x) with h | h
      · rcases max_choice a x with hm | hm
        · exact Or.inl (by rw [List.foldl_cons, h, hm])
        · exact Or.inr (by rw [List.foldl_cons, h, hm]; exact List.mem_cons_self x t)
      · exact Or.inr (List.mem_cons_of_mem x h)

theorem pyMax_mem {l : List ℚ} (h : l ≠ []) : pyMax l ∈ l := by
  cases l with
  | nil => exact absurd rfl h
  | cons x t =>
      rcases foldl_max_mem t x with hm | hm
      · rw [pyMax, hm]; exact List.mem_cons_self x t
      · exact List.mem_cons_of_mem x (by rw [pyMax]; exact hm)

theorem pyMax_le {l : List ℚ} (x : ℚ) (hx : x ∈ l) : x ≤ pyMax l := by
  cases l with
  | nil => cases hx
  | cons y t =>
      rcases List.mem_cons.mp hx with rfl | hmem
      · exact foldl_max_init_le t x
      · exact foldl_max_mem_le t y x hmem

theorem pyMax_perm {l₁ l₂ : List ℚ} (h : l₁.Perm l₂) : pyMax l₁ = pyMax l₂ := by
  cases l₁ with
  | nil =>
      have h2 : l₂ = [] := h.symm.eq_nil
      rw [h2]
  | cons x t =>
      have h1 : (x :: t) ≠ [] := List.cons_ne_nil x t
      have h2 : l₂ ≠ [] := by
        intro hnil
        rw [hnil] at h
        exact h1 h.eq_nil
      exact le_antisymm
        (pyMax_le (pyMax (x :: t)) (h.subset (pyMax_mem h1)))
        (pyMax_le (pyMax l₂) (h.symm.subset (pyMax_mem h2)))

theorem sampleVariance_perm {l₁ l₂ : List ℚ} (h : l₁.Perm l₂) :
    sampleVariance l₁ = sampleVariance l₂ := by
  rw [sampleVariance, sampleVariance, pyMean_perm h, h.length_eq,
    (h.map (fun x => (x - pyMean l₂) ^ 2)).sum_eq]

theorem pyStdevGuarded_perm {l₁ l₂ : List ℚ} (h : l₁.Perm l₂) :
    pyStdevGuarded l₁ = pyStdevGuarded l₂ := by
  rw [pyStdevGuarded, pyStdevGuarded, h.length_eq, sampleVariance_perm h]

/-! ### Partition permutation: the buckets of a nodup key cover, flattened,
are a permutation of the covered list -/

theorem flatten_filter_perm {α κ : Type} [DecidableEq κ] (key : α → κ) :
    ∀ (KS : List κ), KS.Nodup → ∀ (S : List α), (∀ x ∈ S, key x ∈ KS) →
      ((KS.map (fun k => S.filter (fun x => key x = k))).flatten).Perm S := by
  intro KS
  induction KS with
  | nil =>
      intro _ S hS
      have hnil : S = [] :=
        List.eq_nil_iff_forall_not_mem.mpr (fun x hx => by simpa using hS x hx)
      simp [hnil]
  | cons k KS ih =>
      intro hnd S hS
      obtain ⟨hk, hnd'⟩ := List.nodup_cons.mp hnd
      simp only [List.map_cons, List.flatten_cons]
      have hmap : KS.map (fun k' => S.filter (fun x => key x = k'))
          = KS.map (fun k' =>
              (S.filter (fun x => !(decide (key x = k)))).filter
                (fun x => key x = k')) := by
        refine List.map_congr_left (fun k' hk' => ?_)
        have hkk : k' ≠ k := fun hh => hk (hh ▸ hk')
        rw [List.filter_filter]
        refine (List.filter_congr (fun x _ => ?_)).symm
        by_cases hx : key x = k'
        · have hnk : ¬ (key x = k) := by rw [hx]; exact hkk
          simp [hx, hnk, hkk]
        · simp [hx]
      rw [hmap]
      have hcov : ∀ x ∈ S.filter (fun x => !(decide (key x = k))), key x ∈ KS := by
        intro x hx
        have hxS := List.mem_of_mem_filter hx
        have hkx : ¬ (key x = k) := by simpa using List.of_mem_filter hx
        rcases List.mem_cons.mp (hS x hxS) with h | h
        · exact absurd h hkx
        · exact h
      have hperm := ih hnd' (S.filter (fun x => !(decide (key x = k)))) hcov
      exact ((hperm.append_left (S.filter (fun x => decide (key x = k)))).trans
        (List.filter_append_perm (fun x => decide (key x = k)) S))

/-! ### Plain-dict (`assocSet`) lemmas -/

theorem assocGet_cons {κ β : Type} [DecidableEq κ] (a : κ) (b : β)
    (t : List (κ × β)) (k : κ) :
    assocGet ((a, b) :: t) k = if a = k then some b else assocGet t k := by
  by_cases h : a = k <;> simp [assocGet, List.find?_cons, h]

theorem assocGet_assocSet {κ β : Type} [DecidableEq κ] (d : List (κ × β))
    (k' k : κ) (v : β) :
    assocGet (assocSet d k' v) k = if k' = k then some v else assocGet d k := by
  induction d with
  | nil => by_cases h : k' = k <;> simp [assocSet, assocGet_cons, assocGet, h]
  | cons p t ih =>
      obtain ⟨a, b⟩ := p
      simp only [assocSet]
      by_cases hak : a = k'
      · rw [if_pos hak]
        subst hak
        by_cases h : a = k <;> simp [assocGet_cons, h]
      · rw [if_neg hak]
        by_cases h : a = k
        · subst h
          have hk : k' ≠ a := fun hh => hak hh.symm
          simp [assocGet_cons, hk]
        · simp [assocGet_cons, h, ih]

theorem mem_assocSet {κ β : Type} [DecidableEq κ] {d : List (κ × β)}
    {k : κ} {v : β} {p : κ × β} (hp : p ∈ assocSet d k v) :
    p = (k, v) ∨ p ∈ d := by
  induction d with
  | nil => simpa [assocSet] using hp
  | cons q t ih =>
      obtain ⟨a, b⟩ := q
      simp only [assocSet] at hp
      split at hp
      · rcases List.mem_cons.mp hp with h | h
        · exact Or.inl h
        · exact Or.inr (List.mem_cons_of_mem _ h)
      · rcases List.mem_cons.mp hp with h | h
        · exact Or.inr (h ▸ List.mem_cons_self _ _)
        · rcases ih h with h' | h'
          · exact Or.inl h'
          · exact Or.inr (List.mem_cons_of_mem _ h')

/-- A successful lookup in a dict built by repeated assignment comes from one
of the assigned entries, key and value. -/
theorem assocGet_foldl_assocSet {γ κ β : Type} [DecidableEq κ]
    (l : List γ) (key : γ → κ) (val : γ → β) (acc : List (κ × β)) (k : κ) (w : β)
    (h : assocGet (l.foldl (fun a c => assocSet a (key c) (val c)) acc) k = some w) :
    (∃ c ∈ l, key c = k ∧ w = val c) ∨ assocGet acc k = some w := by
  induction l generalizing acc with
  | nil => exact Or.inr h
  | cons c t ih =>
      simp only [List.foldl_cons] at h
      rcases ih _ h with hc | hacc
      · obtain ⟨c', hc', hk, hw⟩ := hc
        exact Or.inl ⟨c', List.mem_cons_of_mem _ hc', hk, hw⟩
      · rw [assocGet_assocSet] at hacc
        by_cases hk : key c = k
        · rw [if_pos hk] at hacc
          exact Or.inl ⟨c, List.mem_cons_self _ _, hk, (Option.some.inj hacc).symm⟩
        · rw [if_neg hk] at hacc
          exact Or.inr hacc

/-- Like `assocGet_foldl_assocSet`, for a loop whose assignment is guarded by
a condition. -/
theorem assocGet_foldl_assocSet_guard {γ κ β : Type} [DecidableEq κ]
    (l : List γ) (cond : γ → Prop) [DecidablePred cond] (key : γ → κ) (val : γ → β)
    (acc : List (κ × β)) (k : κ) (w : β)
    (h : assocGet (l.foldl
        (fun a c => if cond c then assocSet a (key c) (val c) else a) acc) k = some w) :
    (∃ c ∈ l, cond c ∧ key c = k ∧ w = val c) ∨ assocGet acc k = some w := by
  induction l generalizing acc with
  | nil => exact Or.inr h
  | cons c t ih =>
      simp only [List.foldl_cons] at h
      rcases ih _ h with hc | hacc
      · obtain ⟨c', hc', hcond, hk, hw⟩ := hc
        exact Or.inl ⟨c', List.mem_cons_of_mem _ hc', hcond, hk, hw⟩
      · by_cases hcond : cond c
        · rw [if_pos hcond, assocGet_assocSet] at hacc
          by_cases hk : key c = k
          · rw [if_pos hk] at hacc
            exact Or.inl ⟨c, List.mem_cons_self _ _, hcond, hk, (Option.some.inj hacc).symm⟩
          · rw [if_neg hk] at hacc
            exact Or.inr hacc
        · rw [if_neg hcond] at hacc
          exact Or.inr hacc

/-- Entry membership for the guarded-assignment loop. -/
theorem mem_foldl_assocSet_guard {γ κ β : Type} [DecidableEq κ]
    (l : List γ) (cond : γ → Prop) [DecidablePred cond] (key : γ → κ) (val : γ → β)
    (acc : List (κ × β)) (p : κ × β)
    (hp : p ∈ l.foldl (fun a c => if cond c then assocSet a (key c) (val c) else a) acc) :
    (∃ c ∈ l, cond c ∧ p = (key c, val c)) ∨ p ∈ acc := by
  induction l generalizing acc with
  | nil => exact Or.inr hp
  | cons c t ih =>
      simp only [List.foldl_cons] at hp
      rcases ih _ hp with hc | hacc
      · obtain ⟨c', hc', hcond, hval⟩ := hc
        exact Or.inl ⟨c', List.mem_cons_of_mem _ hc', hcond, hval⟩
      · by_cases hcond : cond c
        · rw [if_pos hcond] at hacc
          rcases mem_assocSet hacc with h | h
          · exact Or.inl ⟨c, List.mem_cons_self _ _, hcond, h⟩
          · exact Or.inr h
        · rw [if_neg hcond] at hacc
          exact Or.inr hacc

/-! ### The two-stage grouping of `aggregate` never drops or duplicates a
score -/

/-- The scores contributing to one `(metric_name, evaluator_model)` group:
every score of every `MetricResult` with those names, in input order. -/
def matchingScores (results : List BenchmarkResult) (m e : String) : List ℚ :=
  ((flatMetrics results).filter
    (fun mr => mr.metric_name = m ∧ mr.evaluator_model = e)).map (fun mr => mr.score)

/-- A regrouped bucket is a permutation of the inputs whose projected key
matches. -/
theorem regroup_bucket_perm {α κ κ₂ : Type} [DecidableEq κ] [DecidableEq κ₂]
    {β : Type} (key : α → κ) (val : α → β) (proj : κ → κ₂) (xs : List α) (k2 : κ₂) :
    (bucketOf (regroup proj (groupByKey key val xs)) k2).Perm
      ((xs.filter (fun x => proj (key x) = k2)).map val) := by
  have hnd : (keysOf (groupByKey key val xs)).Nodup := by
    rw [groupByKey]
    exact nodup_keysOf_foldl_addGroup key (fun x => [val x]) xs [] (by simp [keysOf])
  rw [bucketOf_regroup]
  have hentry : ∀ p ∈ (groupByKey key val xs).filter
      (fun p => decide (proj p.1 = k2)),
      (fun p : κ × List β => p.2) p
        = (fun p : κ × List β => (xs.filter (fun x => key x = p.1)).map val) p := by
    intro p hp
    have hpgs := List.mem_of_mem_filter hp
    have hb := bucketOf_of_mem hnd (show (p.1, p.2) ∈ groupByKey key val xs by
      simpa using hpgs)
    simp only []
    rw [← hb, bucketOf_groupByKey]
  rw [List.map_congr_left hentry]
  have hcomp : ((groupByKey key val xs).filter (fun p => decide (proj p.1 = k2))).map
        (fun p => (xs.filter (fun x => key x = p.1)).map val)
      = (((groupByKey key val xs).filter (fun p => decide (proj p.1 = k2))).map
        (fun p => xs.filter (fun x => key x = p.1))).map (List.map val) := by
    rw [List.map_map]
    rfl
  rw [hcomp, ← List.map_flatten]
  apply List.Perm.map
  have hKchunk : ((groupByKey key val xs).filter (fun p => decide (proj p.1 = k2))).map
        (fun p => xs.filter (fun x => key x = p.1))
      = (((groupByKey key val xs).filter (fun p => decide (proj p.1 = k2))).map
        (fun p => p.1)).map (fun k => xs.filter (fun x => key x = k)) := by
    rw [List.map_map]
    rfl
  rw [hKchunk]
  have hKSnd : ((((groupByKey key val xs).filter
      (fun p => decide (proj p.1 = k2))).map (fun p => p.1))).Nodup := by
    have hsub : (((groupByKey key val xs).filter
        (fun p => decide (proj p.1 = k2))).map (fun p : κ × List β => p.1)).Sublist
        ((groupByKey key val xs).map (fun p : κ × List β => p.1)) :=
      (List.filter_sublist _).map (fun p : κ × List β => p.1)
    exact hnd.sublist hsub
  have hrestrict : (((groupByKey key val xs).filter
        (fun p => decide (proj p.1 = k2))).map (fun p => p.1)).map
        (fun k => xs.filter (fun x => key x = k))
      = (((groupByKey key val xs).filter
        (fun p => decide (proj p.1 = k2))).map (fun p => p.1)).map
        (fun k => (xs.filter (fun x => proj (key x) = k2)).filter
          (fun x => key x = k)) := by
    refine List.map_congr_left (fun k hk => ?_)
    have hprojk : proj k = k2 := by
      obtain ⟨p, hpFL, rfl⟩ := List.mem_map.mp hk
      simpa using List.of_mem_filter hpFL
    rw [List.filter_filter]
    refine List.filter_congr (fun x _ => ?_)
    by_cases hxk : key x = k
    · simp [hxk, hprojk]
    · simp [hxk]
  rw [hrestrict]
  apply flatten_filter_perm key _ hKSnd
  intro x hx
  have hxxs := List.mem_of_mem_filter hx
  have hxk2 : proj (key x) = k2 := by simpa using List.of_mem_filter hx
  have hkey : key x ∈ keysOf (groupByKey key val xs) := by
    rw [groupByKey]
    exact (mem_keysOf_foldl_addGroup key (fun x => [val x]) xs []
      (key x)).mpr (Or.inr ⟨x, hxxs, rfl⟩)
  obtain ⟨p, hp, hp1⟩ := List.mem_map.mp hkey
  refine List.mem_map.mpr ⟨p, ?_, hp1⟩
  refine List.mem_filter.mpr ⟨hp, ?_⟩
  simp [hp1, hxk2]

/-- The overall bucket of `(m, e)` in `aggregate`'s two-stage grouping is a
permutation of all matching scores. -/
theorem overall_scores_perm (results : List BenchmarkResult) (m e : String) :
    (bucketOf (regroup (fun k : String × String × String × String => (k.1, k.2.1))
        (groupByKey key4 (fun mr => mr.score) (flatMetrics results))) (m, e)).Perm
      (matchingScores results m e) := by
  refine (regroup_bucket_perm key4 (fun mr => mr.score)
      (fun k => (k.1, k.2.1)) (flatMetrics results) (m, e)).trans ?_
  rw [matchingScores]
  have heq : (flatMetrics results).filter
        (fun x => decide ((fun k : String × String × String × String =>
          (k.1, k.2.1)) (key4 x) = (m, e)))
      = (flatMetrics results).filter
        (fun mr => decide (mr.metric_name = m ∧ mr.evaluator_model = e)) := by
    refine List.filter_congr (fun mr _ => ?_)
    simp [key4, Prod.ext_iff]
  rw [heq]

/-- **C5.** For every `(metric name, evaluator model)` aggregation produced
by `aggregate`: `per_run_scores` is a permutation of all scores matching
that group across all quizzes, questions and runs (no subsample); `mean`,
`median`, `min` and `max` are the arithmetic mean, median, minimum and
maximum of those scores; `num_runs` is their count; `std_dev` is the sample
standard deviation when the group has two or more scores and exactly 0.0,
without raising, otherwise.  In particular, two scores [40.0, 60.0] for
metric "difficulty" and evaluator "mock" yield mean 50.0, median 50.0,
min 40.0, max 60.0, num_runs 2 and std_dev √200 ≈ 14.14 (between 14.14 and
14.15). -/
theorem aggregate_group_statistics :
    (∀ (results : List BenchmarkResult) (name agg_key : String)
        (agg : AggregatedResults) (A : MetricAggregation),
      aggregate results name = Except.ok agg →
      assocGet agg.aggregations agg_key = some A →
      A.per_run_scores.Perm (matchingScores results A.metric_name A.evaluator_model)
      ∧ A.mean = pyMean (matchingScores results A.metric_name A.evaluator_model)
      ∧ A.median = pyMedian (matchingScores results A.metric_name A.evaluator_model)
      ∧ A.min = pyMin (matchingScores results A.metric_name A.evaluator_model)
      ∧ A.max = pyMax (matchingScores results A.metric_name A.evaluator_model)
      ∧ A.num_runs = (matchingScores results A.metric_name A.evaluator_model).length
      ∧ (1 < (matchingScores results A.metric_name A.evaluator_model).length →
          A.std_dev = Real.sqrt
            (sampleVariance (matchingScores results A.metric_name A.evaluator_model)))
      ∧ ((matchingScores results A.metric_name A.evaluator_model).length ≤ 1 →
          A.std_dev = 0))
    ∧ (∃ agg A, aggregate scnResults "test" = Except.ok agg
        ∧ assocGet agg.aggregations "difficulty_mock" = some A
        ∧ A.metric_name = "difficulty" ∧ A.evaluator_model = "mock"
        ∧ A.mean = 50 ∧ A.median = 50 ∧ A.min = 40 ∧ A.max = 60 ∧ A.num_runs = 2
        ∧ A.std_dev = Real.sqrt 200
        ∧ 14.14 ≤ A.std_dev ∧ A.std_dev ≤ 14.15) := by
  constructor
  · intro results name agg_key agg A hagg hA
    cases results with
    | nil => simp [aggregate] at hagg
    | cons r0 rest =>
        simp only [aggregate, pure, Except.pure, Except.ok.injEq] at hagg
        subst hagg
        dsimp only [] at hA
        rcases assocGet_foldl_assocSet _ _ _ _ _ _ hA with ⟨p, hp, hpkey, hpA⟩ | hacc
        · have hndreg : (keysOf (regroup
              (fun k : String × String × String × String => (k.1, k.2.1))
              (groupByKey key4 (fun mr => mr.score)
                (flatMetrics (r0 :: rest))))).Nodup := by
            rw [regroup]
            exact nodup_keysOf_foldl_addGroup _ _ _ _ (by simp [keysOf])
          have hbucket := bucketOf_of_mem hndreg
            (show (p.1, p.2) ∈ regroup
              (fun k : String × String × String × String => (k.1, k.2.1))
              (groupByKey key4 (fun mr => mr.score) (flatMetrics (r0 :: rest))) by
              simpa using hp)
          have hperm : p.2.Perm (matchingScores (r0 :: rest) p.1.1 p.1.2) := by
            rw [← hbucket]
            exact overall_scores_perm (r0 :: rest) p.1.1 p.1.2
          subst hpA
          simp only [aggEntry, mkMetricAggregation]
          refine ⟨hperm, pyMean_perm hperm, pyMedian_perm hperm, pyMin_perm hperm,
            pyMax_perm hperm, hperm.length_eq, fun hlen => ?_, fun hlen => ?_⟩
          · rw [pyStdevGuarded_perm hperm, pyStdevGuarded,
              if_pos (by exact hlen)]
          · rw [pyStdevGuarded_perm hperm, pyStdevGuarded,
              if_neg (by omega)]
        · simp [assocGet] at hacc
  · have hagg : aggregate scnResults "test"
        = Except.ok { benchmark_config_name := "test", benchmark_version := "1.0",
                      quiz_ids := ["quiz_1"], total_runs := 2,
                      aggregations := [("difficulty_mock",
                        aggEntry "difficulty" "mock" [40, 60])] } := rfl
    have hms : List.mergeSort [40, 60] (fun a b : ℚ => a ≤ b) = [40, 60] := by
      apply List.mergeSort_of_sorted
      simp
      norm_num
    have hvar : sampleVariance [40, 60] = 200 := by
      norm_num [sampleVariance, pyMean]
    refine ⟨_, aggEntry "difficulty" "mock" [40, 60], hagg, ?_, rfl, rfl,
      ?_, ?_, ?_, ?_, rfl, ?_, ?_, ?_⟩
    · show assocGet [("difficulty_mock", aggEntry "difficulty" "mock" [40, 60])]
          "difficulty_mock" = some (aggEntry "difficulty" "mock" [40, 60])
      rw [assocGet_cons, if_pos rfl]
    · norm_num [aggEntry, mkMetricAggregation, pyMean]
    · norm_num [aggEntry, mkMetricAggregation, pyMedian, hms]
    · norm_num [aggEntry, mkMetricAggregation, pyMin, min_def]
    · norm_num [aggEntry, mkMetricAggregation, pyMax, max_def]
    · show pyStdevGuarded [40, 60] = Real.sqrt 200
      rw [pyStdevGuarded, if_pos (by norm_num), hvar]
      norm_num
    · show (14.14 : ℝ) ≤ pyStdevGuarded [40, 60]
      rw [pyStdevGuarded, if_pos (by norm_num), hvar]
      have h200 : ((200 : ℚ) : ℝ) = 200 := by norm_num
      rw [h200]
      nlinarith [Real.sq_sqrt (by norm_num : (200:ℝ) ≥ 0), Real.sqrt_nonneg (200:ℝ)]
    · show pyStdevGuarded [40, 60] ≤ 14.15
      rw [pyStdevGuarded, if_pos (by norm_num), hvar]
      have h200 : ((200 : ℚ) : ℝ) = 200 := by norm_num
      rw [h200]
      nlinarith [Real.sq_sqrt (by norm_num : (200:ℝ) ≥ 0), Real.sqrt_nonneg (200:ℝ)]

/-- Witness for **C5** at the two-score scenario: the general statement
instantiated at the concrete aggregation. -/
theorem aggregate_group_statistics_witness :
    ∃ (agg : AggregatedResults) (A : MetricAggregation),
      aggregate scnResults "test" = Except.ok agg
      ∧ assocGet agg.aggregations "difficulty_mock" = some A
      ∧ A.per_run_scores.Perm (matchingScores scnResults A.metric_name A.evaluator_model)
      ∧ A.mean = pyMean (matchingScores scnResults A.metric_name A.evaluator_model) := by
  obtain ⟨agg, A, hagg, hA, -, -, -, -, -, -, -, -, -⟩ :=
    aggregate_group_statistics.2
  have h := aggregate_group_statistics.1 scnResults "test" "difficulty_mock" agg A
    hagg hA
  exact ⟨agg, A, hagg, hA, h.1, h.2.1⟩

/-- **C10.** Every `MetricAggregation` ever constructed has
`num_runs = len(per_run_scores)` (the `__post_init__` rule), and the
`num_evaluations` figure `compare_evaluators` reports for an evaluator is
exactly the number of metric results matching the requested metric and that
evaluator. -/
theorem num_runs_counts_scores :
    (∀ (mn em : String) (mean median : ℚ) (sd : ℝ) (mn2 mx : ℚ) (scores : List ℚ),
      (mkMetricAggregation mn em mean median sd mn2 mx scores).num_runs
        = scores.length)
    ∧ (∀ (results : List BenchmarkResult) (metric_name evaluator : String)
        (st : ComparisonStats),
      assocGet (compare_evaluators results metric_name) evaluator = some st →
      st.num_evaluations = ((flatMetrics results).filter
        (fun mr => mr.metric_name = metric_name
          ∧ mr.evaluator_model = evaluator)).length) := by
  refine ⟨fun _ _ _ _ _ _ _ _ => rfl, ?_⟩
  intro results metric_name evaluator st hst
  simp only [compare_evaluators] at hst
  rcases assocGet_foldl_assocSet _ _ _ _ _ _ hst with ⟨p, hp, hpkey, hpst⟩ | hacc
  · simp only [aggregate_by_metric] at hp
    rcases mem_foldl_assocSet_guard _ _ _ _ _ _ hp with ⟨q, hq, hqne, hqval⟩ | hnil
    · have hndbe : (keysOf (groupByKey (fun mr : MetricResult => mr.evaluator_model)
          (fun mr => mr.score)
          ((flatMetrics results).filter
            (fun mr => mr.metric_name = metric_name)))).Nodup := by
        rw [groupByKey]
        exact nodup_keysOf_foldl_addGroup _ _ _ _ (by simp [keysOf])
      have hbucket := bucketOf_of_mem hndbe
        (show (q.1, q.2) ∈ groupByKey (fun mr : MetricResult => mr.evaluator_model)
          (fun mr => mr.score)
          ((flatMetrics results).filter
            (fun mr => mr.metric_name = metric_name)) by simpa using hq)
      rw [bucketOf_groupByKey] at hbucket
      have hq1 : q.1 = evaluator := by
        have : p.1 = evaluator := hpkey
        rw [hqval] at this
        exact this
      subst hpst
      rw [hqval]
      show (aggEntry metric_name q.1 q.2).num_runs = _
      show q.2.length = _
      rw [← hbucket, hq1]
      rw [List.length_map, List.filter_filter]
      refine congrArg List.length (List.filter_congr (fun mr _ => ?_))
      by_cases h1 : mr.metric_name = metric_name <;>
        by_cases h2 : mr.evaluator_model = evaluator <;>
          simp [h1, h2]
    · cases hnil
  · simp [assocGet] at hacc

/-- Witness for **C10** at the two-score scenario: the reported
`num_evaluations` for evaluator "mock" equals the two matching results. -/
theorem num_runs_counts_scores_witness :
    ∃ st, assocGet (compare_evaluators scnResults "difficulty") "mock" = some st
      ∧ st.num_evaluations = 2 := by
  have hcmp : assocGet (compare_evaluators scnResults "difficulty") "mock"
      = some { mean := pyMean [40, 60], median := pyMedian [40, 60],
               std_dev := pyStdevGuarded [40, 60], min := pyMin [40, 60],
               max := pyMax [40, 60], num_evaluations := 2 } := rfl
  refine ⟨_, hcmp, ?_⟩
  have h := num_runs_counts_scores.2 scnResults "difficulty" "mock" _ hcmp
  rw [h]
  rfl

end QuizBench
